import Mathlib

/-!
# Verification of the context-graph knowledge-graph service

Shallow embedding of the Python service under `api/app` (routers and
services) together with theorems settling the specification claims.
Each Python function the claims touch is translated into an executable
Lean definition; external engines (Postgres/AGE, Qdrant, OpenAI) are
modelled at the interface the code drives them through.

All string processing is modelled at ASCII granularity, matching the
behaviour of Python `str.upper`, `re` word classes and comment patterns
on ASCII input.
-/

namespace ContextGraph

/-! ## Cypher raw-query gate (`app/routers/utils.py`)

`has_dangerous_keywords` strips `//…` single-line comments (per line, as
`re.sub(r'//.*$', '', q, flags=MULTILINE)` does), then `/*…*/` block
comments (leftmost, non-greedy, unterminated openers left in place, as
`re.sub(r'/\*.*?\*/', '', ·, flags=DOTALL)` does), uppercases the text,
and collects the `\b[A-Z]+\b` word-boundary words.  A match of
`\b[A-Z]+\b` is exactly a maximal run of word characters
(`[A-Za-z0-9_]`) consisting only of `A`–`Z`, which is how the word set
is computed here.  The scanners are written as structural state
machines so that concrete queries evaluate by `decide`. -/

def DANGEROUS_KEYWORDS : List String :=
  ["DELETE", "CREATE", "DROP", "SET", "REMOVE", "MERGE", "DETACH", "CALL"]

/-- One step short of `//`: state of the single-line comment stripper. -/
inductive LineState
  | normal
  | afterSlash
  | inComment
  deriving DecidableEq

/-- `re.sub(r'//.*$', '', q, flags=re.MULTILINE)`: drop from the first
`//` of each line to the end of that line, keeping the newline. -/
def stripLineCommentsAux : LineState → List Char → List Char
  | .normal, [] => []
  | .afterSlash, [] => ['/']
  | .inComment, [] => []
  | .normal, c :: rest =>
      if c = '/' then stripLineCommentsAux .afterSlash rest
      else c :: stripLineCommentsAux .normal rest
  | .afterSlash, c :: rest =>
      if c = '/' then stripLineCommentsAux .inComment rest
      else '/' :: (if c = '\n' then '\n' :: stripLineCommentsAux .normal rest
                   else c :: stripLineCommentsAux .normal rest)
  | .inComment, c :: rest =>
      if c = '\n' then '\n' :: stripLineCommentsAux .normal rest
      else stripLineCommentsAux .inComment rest

def stripLineComments (cs : List Char) : List Char :=
  stripLineCommentsAux .normal cs

/-- State of the block-comment stripper.  `pend` holds (reversed) the
characters consumed since a `/*` opener, so that an unterminated
comment can be restored verbatim, as the regex leaves it unmatched. -/
inductive BlockState
  | normal
  | afterSlash
  | inComment
  | inCommentStar
  deriving DecidableEq

/-- `re.sub(r'/\*.*?\*/', '', ·, flags=re.DOTALL)`: remove each
leftmost `/*` together with everything up to the nearest following
`*/`; a `/*` with no later `*/` is kept. -/
def stripBlockCommentsAux : BlockState → List Char → List Char → List Char
  | .normal, _, [] => []
  | .afterSlash, _, [] => ['/']
  | .inComment, pend, [] => pend.reverse
  | .inCommentStar, pend, [] => pend.reverse
  | .normal, pend, c :: rest =>
      if c = '/' then stripBlockCommentsAux .afterSlash pend rest
      else c :: stripBlockCommentsAux .normal pend rest
  | .afterSlash, pend, c :: rest =>
      if c = '*' then stripBlockCommentsAux .inComment ['*', '/'] rest
      else if c = '/' then '/' :: stripBlockCommentsAux .afterSlash pend rest
      else '/' :: c :: stripBlockCommentsAux .normal pend rest
  | .inComment, pend, c :: rest =>
      if c = '*' then stripBlockCommentsAux .inCommentStar (c :: pend) rest
      else stripBlockCommentsAux .inComment (c :: pend) rest
  | .inCommentStar, pend, c :: rest =>
      if c = '/' then stripBlockCommentsAux .normal [] rest
      else if c = '*' then stripBlockCommentsAux .inCommentStar (c :: pend) rest
      else stripBlockCommentsAux .inComment (c :: pend) rest

def stripBlockComments (cs : List Char) : List Char :=
  stripBlockCommentsAux .normal [] cs

/-- Python `\w` on ASCII: letters, digits, underscore. -/
def isWordChar (c : Char) : Bool :=
  c.isAlpha || c.isDigit || c = '_'

/-- Maximal runs of word characters (`cur` is the reversed current run). -/
def wordRunsAux : List Char → List Char → List (List Char)
  | [], cur => if cur.isEmpty then [] else [cur.reverse]
  | c :: rest, cur =>
      if isWordChar c then wordRunsAux rest (c :: cur)
      else if cur.isEmpty then wordRunsAux rest []
      else cur.reverse :: wordRunsAux rest []

def wordRuns (cs : List Char) : List (List Char) :=
  wordRunsAux cs []

def isUpperAlpha (c : Char) : Bool :=
  'A' ≤ c && c ≤ 'Z'

/-- `re.findall(r'\b[A-Z]+\b', s)` as a set of words: the maximal
word-character runs of `s` that consist only of `A`–`Z`. -/
def upperBoundaryWords (cs : List Char) : List String :=
  ((wordRuns cs).filter (fun w => w.all isUpperAlpha)).map (fun w => String.mk w)

/-- The comment stripping performed by `has_dangerous_keywords`:
single-line comments first, then block comments. -/
def stripComments (q : String) : List Char :=
  stripBlockComments (stripLineComments q.data)

/-- `has_dangerous_keywords(query)` from `app/routers/utils.py`. -/
def has_dangerous_keywords (query : String) : Bool :=
  (upperBoundaryWords ((stripComments query).map Char.toUpper)).any
    (fun w => DANGEROUS_KEYWORDS.contains w)

end ContextGraph

namespace ContextGraph

/-! ## Property bags and shared graph-row shapes

Property values submitted through the API are JSON scalars; the claims
settled here only exercise string/number/boolean values, so the bag
value type covers those.  Python `dict`s are modelled as ordered
association lists with Python's `dict` update semantics: setting an
existing key replaces the value in place, a new key is appended. -/

inductive Value
  | vstr (s : String)
  | vint (n : Int)
  | vbool (b : Bool)
  deriving DecidableEq, Repr

/-- An ordered string-keyed dictionary (Python `dict`). -/
abbrev Props := List (String × Value)

def dictHasKey (ps : Props) (k : String) : Bool :=
  ps.any (fun p => p.1 == k)

/-- `d[k] = v` on a Python dict: replace in place or append. -/
def dictInsert (ps : Props) (k : String) (v : Value) : Props :=
  if dictHasKey ps k then ps.map (fun p => if p.1 == k then (k, v) else p)
  else ps ++ [(k, v)]

/-- `{**a, **b}` on Python dicts. -/
def dictMerge (a b : Props) : Props :=
  b.foldl (fun acc kv => dictInsert acc kv.1 kv.2) a

def dictLookup (ps : Props) (k : String) : Option Value :=
  ps.lookup k

/-- `normalize_label` from `app/utils.py`, on the AGE `labels()` list
form: first label, or `Unknown` for an empty list. -/
def normalize_label (labels : List String) : String :=
  labels.headD "Unknown"

/-- Python `str.lower()` on ASCII text (character-wise, so that it
evaluates inside `decide`). -/
def strToLower (s : String) : String :=
  String.mk (s.data.map Char.toLower)

/-- C1: the raw Cypher query gate (`has_dangerous_keywords`, which
`execute_cypher` turns into a 400 rejection) fires if and only if,
after stripping `//` single-line and `/*…*/` block comments, the set of
uppercase word-boundary words of the (uppercased) query text intersects
`{DELETE, CREATE, DROP, SET, REMOVE, MERGE, DETACH, CALL}`; in
particular a query whose only keyword-like tokens are identifiers such
as `dataset`, `create_date` or `MERGED_AT` is never rejected. -/
theorem C1_raw_query_gate :
    (∀ q : String, has_dangerous_keywords q = true ↔
      ∃ w ∈ upperBoundaryWords ((stripComments q).map Char.toUpper),
        w ∈ DANGEROUS_KEYWORDS) ∧
    has_dangerous_keywords
      "MATCH (n) WHERE n.create_date > 0 AND n.name = 'dataset' RETURN n.MERGED_AT" = false ∧
    has_dangerous_keywords "MATCH (n) DETACH DELETE n" = true := by
  refine ⟨fun q => ?_, by decide, by decide⟩
  simp [has_dangerous_keywords, List.any_eq_true, List.contains_iff_exists_mem_beq]

/-! ## Duplicate detection (`GraphService.find_duplicates` and the
`deduplicate_entities` router, `services/graph.py` / `routers/knowledge.py`)

Graph ids are store-assigned integers; the Python code round-trips them
through `str` and `int(str(...))`, which is the identity on such ids,
so they are carried as `Nat` here. -/

/-- A row of `MATCH (n) RETURN id(n), n.name, labels(n), properties(n)`. -/
structure AgeEntity where
  id : Nat
  name : String
  labels : List String
  props : Props
  deriving DecidableEq, Repr, Inhabited

/-- The grouping key of `find_duplicates`: `f"{name.lower()}::{etype}"`
with `etype` the first label. -/
def dupGroupKey (e : AgeEntity) : String :=
  strToLower e.name ++ "::" ++ e.labels.headD ""

/-- Entry of a duplicate group as returned by `find_duplicates`. -/
structure DupEntry where
  id : Nat
  name : String
  props : Props
  deriving DecidableEq, Repr, Inhabited

/-- Raw duplicate group (`{"name", "type", "duplicates"}`). -/
structure DupGroupRaw where
  name : String
  type : List String
  duplicates : List DupEntry
  deriving DecidableEq, Repr

/-- Insertion-order grouping with Python `dict` semantics
(`groups.setdefault(key, []).append(e)`). -/
def groupEntities (es : List AgeEntity) : List (String × List AgeEntity) :=
  es.foldl
    (fun acc e =>
      let k := dupGroupKey e
      if acc.any (fun g => g.1 == k) then
        acc.map (fun g => if g.1 == k then (g.1, g.2 ++ [e]) else g)
      else acc ++ [(k, [e])])
    []

/-- `GraphService.find_duplicates`: group all fetched entities by
`(lowercased name, first label)` and keep only groups of size ≥ 2. -/
def find_duplicates (es : List AgeEntity) : List DupGroupRaw :=
  ((groupEntities es).filter (fun g => 1 < g.2.length)).map
    (fun g =>
      { name := (g.2.headD default).name
        type := (g.2.headD default).labels
        duplicates := g.2.map (fun e => { id := e.id, name := e.name, props := e.props }) })

/-- Stable insertion into a list sorted ascending by id. -/
def insertById (e : DupEntry) : List DupEntry → List DupEntry
  | [] => [e]
  | x :: xs => if e.id ≤ x.id then e :: x :: xs else x :: insertById e xs

/-- Python `sorted(entities, key=lambda e: int(str(e.get("id", 0))))`. -/
def sortById (l : List DupEntry) : List DupEntry :=
  l.foldr insertById []

/-- One `DuplicateGroup` of the `deduplicate_entities` router response. -/
structure DuplicateGroup where
  name : String
  type : String
  entities : List DupEntry
  recommended_keep : Nat
  deriving DecidableEq, Repr

/-- The group-shaping loop of the `deduplicate_entities` router: sort
each duplicate group by id ascending and recommend the first entry. -/
def deduplicateGroups (es : List AgeEntity) : List DuplicateGroup :=
  (find_duplicates es).foldl
    (fun groups dup =>
      if dup.duplicates.isEmpty then groups
      else
        let sorted := sortById dup.duplicates
        groups ++ [{ name := dup.name
                     type := normalize_label dup.type
                     entities := sorted
                     recommended_keep := (sorted.headD default).id }])
    []

theorem mem_insertById {a e : DupEntry} {l : List DupEntry} :
    a ∈ insertById e l ↔ a = e ∨ a ∈ l := by
  induction l with
  | nil => simp [insertById]
  | cons x xs ih =>
      by_cases h : e.id ≤ x.id
      · simp [insertById, h, ih]
      · simp [insertById, h, ih]
        tauto

theorem pairwise_insertById {e : DupEntry} {l : List DupEntry}
    (h : l.Pairwise (fun a b => a.id ≤ b.id)) :
    (insertById e l).Pairwise (fun a b => a.id ≤ b.id) := by
  induction l with
  | nil => simp [insertById]
  | cons x xs ih =>
      rcases List.pairwise_cons.mp h with ⟨hx, hxs⟩
      by_cases hle : e.id ≤ x.id
      · simp only [insertById, if_pos hle]
        refine List.pairwise_cons.mpr ⟨?_, h⟩
        intro b hb
        rcases List.mem_cons.mp hb with rfl | hb
        · exact hle
        · exact le_trans hle (hx b hb)
      · simp only [insertById, if_neg hle]
        refine List.pairwise_cons.mpr ⟨?_, ih hxs⟩
        intro b hb
        rcases mem_insertById.mp hb with rfl | hb
        · omega
        · exact hx b hb

theorem pairwise_sortById (l : List DupEntry) :
    (sortById l).Pairwise (fun a b => a.id ≤ b.id) := by
  induction l with
  | nil => simp [sortById]
  | cons x xs ih => exact pairwise_insertById ih

theorem mem_sortById {a : DupEntry} {l : List DupEntry} :
    a ∈ sortById l ↔ a ∈ l := by
  induction l with
  | nil => simp [sortById]
  | cons x xs ih =>
      simp only [sortById, List.foldr_cons, mem_insertById, List.mem_cons]
      rw [show xs.foldr insertById [] = sortById xs from rfl] at *
      tauto

/-- C6: in every duplicate group produced by the deduplicate operation,
the recommended keeper is a member of the group and carries the
numerically lowest id of the group. -/
theorem C6_dedup_keeper_lowest_id (es : List AgeEntity)
    (g : DuplicateGroup) (hg : g ∈ deduplicateGroups es) :
    (∃ e ∈ g.entities, e.id = g.recommended_keep) ∧
    ∀ e ∈ g.entities, g.recommended_keep ≤ e.id := by
  have main : ∀ (dups : List DupGroupRaw) (acc : List DuplicateGroup),
      (∀ g' ∈ acc, (∃ e ∈ g'.entities, e.id = g'.recommended_keep) ∧
        ∀ e ∈ g'.entities, g'.recommended_keep ≤ e.id) →
      g ∈ dups.foldl
        (fun groups dup =>
          if dup.duplicates.isEmpty then groups
          else
            let sorted := sortById dup.duplicates
            groups ++ [{ name := dup.name
                         type := normalize_label dup.type
                         entities := sorted
                         recommended_keep := (sorted.headD default).id }]) acc →
      (∃ e ∈ g.entities, e.id = g.recommended_keep) ∧
        ∀ e ∈ g.entities, g.recommended_keep ≤ e.id := by
    intro dups
    induction dups with
    | nil => intro acc hacc hmem; exact hacc g hmem
    | cons d ds ih =>
        intro acc hacc hmem
        simp only [List.foldl_cons] at hmem
        by_cases hd : d.duplicates.isEmpty
        · rw [if_pos hd] at hmem
          exact ih acc hacc hmem
        · rw [if_neg hd] at hmem
          refine ih _ ?_ hmem
          intro g' hg'
          rcases List.mem_append.mp hg' with h | h
          · exact hacc g' h
          · have hgeq : g' = { name := d.name
                               type := normalize_label d.type
                               entities := sortById d.duplicates
                               recommended_keep := ((sortById d.duplicates).headD default).id } := by
              simpa using h
          -- the sorted list is nonempty because the raw duplicates are
            have hne : sortById d.duplicates ≠ [] := by
              intro hnil
              have : d.duplicates = [] := by
                cases hdup : d.duplicates with
                | nil => rfl
                | cons a as =>
                    exfalso
                    have : a ∈ sortById d.duplicates := by
                      rw [hdup]; exact mem_sortById.mpr (List.mem_cons_self a as)
                    rw [hnil] at this
                    exact List.not_mem_nil a this
              simp [this] at hd
            obtain ⟨h0, t0, hsorted⟩ : ∃ h0 t0, sortById d.duplicates = h0 :: t0 := by
              cases hs : sortById d.duplicates with
              | nil => exact absurd hs hne
              | cons a as => exact ⟨a, as, rfl⟩
            subst hgeq
            constructor
            · refine ⟨h0, ?_, ?_⟩
              · simp [hsorted]
              · simp [hsorted]
            · intro e he
              have hpw := pairwise_sortById d.duplicates
              rw [hsorted] at hpw he ⊢
              rcases List.mem_cons.mp he with rfl | he
              · simp
              · simpa using (List.pairwise_cons.mp hpw).1 e he
  exact main (find_duplicates es) [] (by intro g' h; simp at h) hg

/-- Witness for C6 at a concrete graph: two `Widget : Component`
entities with ids 5 and 3; the keeper is id 3. -/
theorem C6_dedup_keeper_lowest_id_witness :
    ∃ g ∈ deduplicateGroups
        [⟨5, "Widget", ["Component"], []⟩, ⟨3, "widget", ["Component"], []⟩],
      (∃ e ∈ g.entities, e.id = g.recommended_keep) ∧
        (∀ e ∈ g.entities, g.recommended_keep ≤ e.id) ∧
        g.recommended_keep = 3 := by
  refine ⟨{ name := "Widget", type := "Component",
            entities := [⟨3, "widget", []⟩, ⟨5, "Widget", []⟩],
            recommended_keep := 3 }, ?_, ?_, ?_, by decide⟩
  · decide
  · exact (C6_dedup_keeper_lowest_id
      [⟨5, "Widget", ["Component"], []⟩, ⟨3, "widget", ["Component"], []⟩]
      _ (by decide)).1
  · exact (C6_dedup_keeper_lowest_id
      [⟨5, "Widget", ["Component"], []⟩, ⟨3, "widget", ["Component"], []⟩]
      _ (by decide)).2

/-! ## Cross-chunk relationship deduplication
(`ExtractionService._update_relationship_references` and
`ExtractionService._deduplicate_relationships`, `services/extraction.py`)

`extract_from_document` applies `_update_relationship_references` with
the id mapping produced by entity deduplication, then
`_deduplicate_relationships`; the composition is embedded over an
arbitrary relationship list and id mapping, covering every list of
per-chunk extraction results. -/

structure ExtractedRelationship where
  source : String
  target : String
  type : String
  props : Props
  deriving DecidableEq, Repr

/-- `old temp_id → new temp_id`, a Python dict. -/
abbrev IdMapping := List (String × String)

/-- `id_mapping.get(x, x)`. -/
def mappingGet (m : IdMapping) (k : String) : String :=
  (m.lookup k).getD k

/-- `_update_relationship_references`: rewrite both endpoints through
the mapping and skip relationships that collapse to self-references. -/
def update_relationship_references
    (rels : List ExtractedRelationship) (m : IdMapping) : List ExtractedRelationship :=
  rels.filterMap (fun rel =>
    let newSource := mappingGet m rel.source
    let newTarget := mappingGet m rel.target
    if newSource = newTarget then none
    else some { source := newSource, target := newTarget,
                type := rel.type, props := rel.props })

def relKey (r : ExtractedRelationship) : String × String × String :=
  (r.source, r.target, r.type)

/-- `if k not in existing.properties: existing.properties[k] = v` over
a duplicate's property items: first-seen wins on conflicting keys. -/
def addMissingProps (existing ps : Props) : Props :=
  ps.foldl (fun acc kv => if dictHasKey acc kv.1 then acc else acc ++ [kv]) existing

/-- Merge a duplicate's properties into the first entry carrying the
same key. -/
def mergeIntoFirst :
    List ExtractedRelationship → String × String × String → Props →
      List ExtractedRelationship
  | [], _, _ => []
  | e :: rest, k, ps =>
      if relKey e = k then
        { e with props := addMissingProps e.props ps } :: rest
      else e :: mergeIntoFirst rest k ps

/-- The loop of `_deduplicate_relationships` (`deduped` is the
accumulator; the Python `seen` set always equals the key set of
`deduped`, so the membership test is taken on the accumulator). -/
def dedupRelsGo :
    List ExtractedRelationship → List ExtractedRelationship →
      List ExtractedRelationship
  | [], deduped => deduped
  | rel :: rest, deduped =>
      if deduped.any (fun e => relKey e = relKey rel) then
        dedupRelsGo rest (mergeIntoFirst deduped (relKey rel) rel.props)
      else dedupRelsGo rest (deduped ++ [rel])

/-- `_deduplicate_relationships`: keep the first relationship per
`(source, target, type)` key, folding later duplicates' properties into
it. -/
def deduplicate_relationships
    (rels : List ExtractedRelationship) : List ExtractedRelationship :=
  dedupRelsGo rels []

/-- The relationship list `extract_from_document` returns, as a
function of the collected per-chunk relationships and the entity-dedup
id mapping. -/
def crossChunkRelationships
    (rels : List ExtractedRelationship) (m : IdMapping) : List ExtractedRelationship :=
  deduplicate_relationships (update_relationship_references rels m)

theorem map_relKey_mergeIntoFirst (l : List ExtractedRelationship)
    (k : String × String × String) (ps : Props) :
    (mergeIntoFirst l k ps).map relKey = l.map relKey := by
  induction l with
  | nil => rfl
  | cons e rest ih =>
      by_cases h : relKey e = k
      · simp only [mergeIntoFirst, if_pos h, List.map_cons, ih]
        congr 1
      · simp [mergeIntoFirst, h, ih]

theorem dedupRelsGo_invariant (rels : List ExtractedRelationship) :
    ∀ acc : List ExtractedRelationship, (acc.map relKey).Nodup →
      ((dedupRelsGo rels acc).map relKey).Nodup ∧
        ∀ r ∈ dedupRelsGo rels acc,
          relKey r ∈ acc.map relKey ∨ relKey r ∈ rels.map relKey := by
  induction rels with
  | nil =>
      intro acc hacc
      refine ⟨hacc, fun r hr => Or.inl ?_⟩
      exact List.mem_map_of_mem relKey hr
  | cons rel rest ih =>
      intro acc hacc
      by_cases hseen : acc.any (fun e => relKey e = relKey rel)
      · have hmap := map_relKey_mergeIntoFirst acc (relKey rel) rel.props
        have h := ih (mergeIntoFirst acc (relKey rel) rel.props) (by rw [hmap]; exact hacc)
        refine ⟨by simpa [dedupRelsGo, hseen] using h.1, ?_⟩
        intro r hr
        have hr' : r ∈ dedupRelsGo rest (mergeIntoFirst acc (relKey rel) rel.props) := by
          simpa [dedupRelsGo, hseen] using hr
        rcases h.2 r hr' with hin | hin
        · exact Or.inl (by rwa [hmap] at hin)
        · exact Or.inr (by simp [hin])
      · have hnotin : relKey rel ∉ acc.map relKey := by
          intro hmem
          rcases List.mem_map.mp hmem with ⟨e, he, hk⟩
          exact hseen (List.any_eq_true.mpr ⟨e, he, by simp [hk]⟩)
        have hacc' : ((acc ++ [rel]).map relKey).Nodup := by
          rw [List.map_append]
          refine List.Nodup.append hacc (by simp) ?_
          intro k hk hk'
          simp only [List.map_cons, List.map_nil, List.mem_singleton] at hk'
          subst hk'
          exact hnotin hk
        have h := ih (acc ++ [rel]) hacc'
        refine ⟨by simpa [dedupRelsGo, hseen] using h.1, ?_⟩
        intro r hr
        have hr' : r ∈ dedupRelsGo rest (acc ++ [rel]) := by
          simpa [dedupRelsGo, hseen] using hr
        rcases h.2 r hr' with hin | hin
        · rw [List.map_append] at hin
          rcases List.mem_append.mp hin with hin | hin
          · exact Or.inl hin
          · exact Or.inr (by simpa using Or.inl (by simpa using hin))
        · exact Or.inr (by simp [hin])

theorem update_refs_no_self (rels : List ExtractedRelationship) (m : IdMapping) :
    ∀ u ∈ update_relationship_references rels m, u.source ≠ u.target := by
  intro u hu
  rcases List.mem_filterMap.mp hu with ⟨rel, _, hf⟩
  by_cases h : mappingGet m rel.source = mappingGet m rel.target
  · simp [h] at hf
  · simp only [if_neg h, Option.some.injEq] at hf
    subst hf
    exact h

/-- C7: after cross-chunk deduplication, no returned relationship is a
self-loop and no `(source, target, type)` triple occurs twice. -/
theorem C7_cross_chunk_relationships (rels : List ExtractedRelationship)
    (m : IdMapping) :
    (∀ r ∈ crossChunkRelationships rels m, r.source ≠ r.target) ∧
      ((crossChunkRelationships rels m).map relKey).Nodup := by
  have h := dedupRelsGo_invariant (update_relationship_references rels m) [] (by simp)
  constructor
  · intro r hr
    rcases h.2 r hr with hin | hin
    · simp at hin
    · rcases List.mem_map.mp hin with ⟨u, hu, hk⟩
      have hne := update_refs_no_self rels m u hu
      have hs : u.source = r.source := congrArg Prod.fst hk
      have ht : u.target = r.target := congrArg (fun p => p.2.1) hk
      rw [hs, ht] at hne
      exact hne
  · exact h.1

/-- Witness for C7: two chunks both extract `alpha USES beta` (under
temp ids collapsed by the mapping) plus a relationship that collapses
to a self-loop; the output is the single de-duplicated edge. -/
theorem C7_cross_chunk_relationships_witness :
    (⟨"d1", "d2", "USES", []⟩ : ExtractedRelationship) ∈
        crossChunkRelationships
          [⟨"c0_e1", "c0_e2", "USES", []⟩, ⟨"c1_e1", "c1_e2", "USES", []⟩,
           ⟨"c0_e1", "c1_e1", "RELATED_TO", []⟩]
          [("c0_e1", "d1"), ("c1_e1", "d1"), ("c0_e2", "d2"), ("c1_e2", "d2")] ∧
      ("d1" : String) ≠ "d2" := by
  refine ⟨by decide, ?_⟩
  exact (C7_cross_chunk_relationships
    [⟨"c0_e1", "c0_e2", "USES", []⟩, ⟨"c1_e1", "c1_e2", "USES", []⟩,
     ⟨"c0_e1", "c1_e1", "RELATED_TO", []⟩]
    [("c0_e1", "d1"), ("c1_e1", "d1"), ("c0_e2", "d2"), ("c1_e2", "d2")]).1
    ⟨"d1", "d2", "USES", []⟩ (by decide)

/-! ## Snapshot retention (`SnapshotService.create` / `SnapshotService._prune`,
`services/snapshot.py`)

A snapshot row is modelled by its primary key, project and creation
time (the exported `graph_data` blob and counts play no role in
retention).  `create` INSERTs the new row and then `_prune` deletes
every row of the project beyond `MAX_SNAPSHOTS_PER_PROJECT` in
`ORDER BY created_at DESC` (`OFFSET` the limit); the `ORDER BY` is
modelled by a stable descending insertion sort, ties resolving in an
engine-chosen order. -/

def MAX_SNAPSHOTS_PER_PROJECT : Nat := 20

structure SnapRow where
  id : Nat
  project_id : Nat
  created_at : Nat
  deriving DecidableEq, Repr

def insertByCreatedDesc (r : SnapRow) : List SnapRow → List SnapRow
  | [] => [r]
  | x :: xs =>
      if x.created_at < r.created_at then r :: x :: xs
      else x :: insertByCreatedDesc r xs

/-- `ORDER BY created_at DESC` on the project’s snapshot rows. -/
def sortByCreatedDesc (l : List SnapRow) : List SnapRow :=
  l.foldr insertByCreatedDesc []

/-- The subquery of `_prune`: ids of the project’s rows past the
retention limit when ordered newest first. -/
def pruneSelectedIds (rows : List SnapRow) (p : Nat) : List Nat :=
  ((sortByCreatedDesc (rows.filter (fun r => r.project_id == p))).drop
      MAX_SNAPSHOTS_PER_PROJECT).map (fun r => r.id)

/-- `SnapshotService._prune`: `DELETE … WHERE id IN (subquery)`. -/
def snapshot_prune (rows : List SnapRow) (p : Nat) : List SnapRow :=
  rows.filter (fun r => !(pruneSelectedIds rows p).contains r.id)

/-- `SnapshotService.create`, restricted to the table state: INSERT the
new row, then prune the row’s project. -/
def snapshot_create (rows : List SnapRow) (new : SnapRow) : List SnapRow :=
  snapshot_prune (rows ++ [new]) new.project_id

theorem perm_insertByCreatedDesc (r : SnapRow) (l : List SnapRow) :
    (insertByCreatedDesc r l).Perm (r :: l) := by
  induction l with
  | nil => simp [insertByCreatedDesc]
  | cons x xs ih =>
      by_cases h : x.created_at < r.created_at
      · simp [insertByCreatedDesc, h]
      · simp only [insertByCreatedDesc, if_neg h]
        exact ((ih.cons x).trans (List.Perm.swap r x xs))

theorem perm_sortByCreatedDesc (l : List SnapRow) :
    (sortByCreatedDesc l).Perm l := by
  induction l with
  | nil => simp [sortByCreatedDesc]
  | cons x xs ih =>
      exact (perm_insertByCreatedDesc x (sortByCreatedDesc xs)).trans (ih.cons x)

/-- C8: immediately after any snapshot create, the project holds at
most `MAX_SNAPSHOTS_PER_PROJECT` (20) snapshot rows: the new snapshot
is persisted and every row beyond the 20 newest by `created_at` is
pruned. -/
theorem C8_snapshot_retention (rows : List SnapRow) (new : SnapRow) :
    ((snapshot_create rows new).filter
        (fun r => r.project_id == new.project_id)).length ≤
      MAX_SNAPSHOTS_PER_PROJECT := by
  set p := new.project_id with hp
  set allRows := rows ++ [new] with hall
  set proj := allRows.filter (fun r => r.project_id == p) with hproj
  set sel := pruneSelectedIds allRows p with hsel
  have hcomm :
      (snapshot_create rows new).filter (fun r => r.project_id == p) =
        proj.filter (fun r => !sel.contains r.id) := by
    simp only [snapshot_create, snapshot_prune, hproj, ← hall, ← hsel]
    rw [List.filter_comm]
  rw [hcomm]
  have hperm : (proj.filter (fun r => !sel.contains r.id)).length =
      ((sortByCreatedDesc proj).filter (fun r => !sel.contains r.id)).length :=
    ((perm_sortByCreatedDesc proj).filter _).length_eq.symm
  rw [hperm]
  have hsplit : sortByCreatedDesc proj =
      (sortByCreatedDesc proj).take MAX_SNAPSHOTS_PER_PROJECT ++
        (sortByCreatedDesc proj).drop MAX_SNAPSHOTS_PER_PROJECT :=
    (List.take_append_drop _ _).symm
  conv_lhs => rw [hsplit]
  rw [List.filter_append, List.length_append]
  have hdropnil :
      ((sortByCreatedDesc proj).drop MAX_SNAPSHOTS_PER_PROJECT).filter
        (fun r => !sel.contains r.id) = [] := by
    refine List.filter_eq_nil_iff.mpr ?_
    intro r hr
    have hmem : r.id ∈ sel := List.mem_map_of_mem _ hr
    simp [hmem]
  rw [hdropnil]
  simp only [List.length_nil, Nat.add_zero]
  exact le_trans (List.length_filter_le _ _) (List.length_take_le _ _)

/-! ## Graph service state (`services/graph.py`)

The AGE graph a project owns is modelled as a list of labelled nodes
and edges with store-assigned integer ids (`nextId` is the allocator).
Each service method is translated together with the semantics of the
single Cypher statement it issues.  `to_cypher_map` drops `None`
values and the API's property values here are JSON scalars, so bags
are `Props` directly. -/

structure GNode where
  id : Nat
  label : String
  props : Props
  deriving DecidableEq, Repr

structure GEdge where
  id : Nat
  src : Nat
  tgt : Nat
  label : String
  props : Props
  deriving DecidableEq, Repr

structure GraphState where
  nextId : Nat
  nodes : List GNode
  edges : List GEdge
  deriving DecidableEq, Repr

/-- `EntityCreate` (`models/entity.py`): name, closed-set label and a
property bag. -/
structure EntityCreate where
  name : String
  type : String
  properties : Props
  deriving DecidableEq, Repr

/-- Python `int()` on the id strings the service passes around: a
non-empty all-digit string (store ids are non-negative integers). -/
def parseNatDigits (cs : List Char) : Option Nat :=
  if cs.isEmpty then none
  else if cs.all Char.isDigit then
    some (cs.foldl (fun n c => n * 10 + (c.toNat - 48)) 0)
  else none

def stripPrefixChars (pre s : List Char) : List Char :=
  if pre.isPrefixOf s then s.drop pre.length else s

/-- `_validate_id`: strip an `entity_` then a `chunk_` prefix, then
parse as an integer; non-integer input raises. -/
def validate_id (entity_id : String) : Except String Nat :=
  let c1 := stripPrefixChars "entity_".data entity_id.data
  let c2 := stripPrefixChars "chunk_".data c1
  match parseNatDigits c2 with
  | some n => .ok n
  | none => .error ("Invalid entity ID: " ++ entity_id)

def dictRemove (ps : Props) (k : String) : Props :=
  ps.filter (fun p => !(p.1 == k))

/-- `GraphService.create_entity`: `CREATE (n:Type {name: …, **props})
RETURN id(n) …`.  The name attribute is lifted into the property map
first, later keys overriding (`{"name": entity.name, **entity.properties}`).
Returns the new store id. -/
def create_entity (g : GraphState) (e : EntityCreate) : GraphState × Nat :=
  let props := dictMerge [("name", Value.vstr e.name)] e.properties
  let node : GNode := { id := g.nextId, label := e.type, props := props }
  ({ g with nextId := g.nextId + 1, nodes := g.nodes ++ [node] }, node.id)

/-- `GraphService.update_entity`: `SET n.k = v` for non-null values,
`REMOVE n.k` for null values (all SETs are applied before the
REMOVEs, as the generated statement orders them).  Returns the updated
row when the id matched. -/
def update_entity (g : GraphState) (eid : Nat)
    (updates : List (String × Option Value)) : GraphState × Option (Nat × Props) :=
  let sets := updates.filterMap (fun kv => kv.2.map (fun v => (kv.1, v)))
  let removes := (updates.filter (fun kv => kv.2.isNone)).map (fun kv => kv.1)
  let apply := fun (p : Props) =>
    removes.foldl dictRemove (sets.foldl (fun a kv => dictInsert a kv.1 kv.2) p)
  let nodes' := g.nodes.map (fun n => if n.id == eid then { n with props := apply n.props } else n)
  ({ g with nodes := nodes' },
   (g.nodes.find? (fun n => n.id == eid)).map (fun n => (n.id, apply n.props)))

/-- The find query of `upsert_entity`:
`MATCH (n:Type) WHERE toLower(n.name) = toLower(name)`. -/
def upsertNameMatches (e : EntityCreate) (n : GNode) : Bool :=
  n.label == e.type &&
    (match dictLookup n.props "name" with
     | some (Value.vstr s) => strToLower s == strToLower e.name
     | _ => false)

/-- Response shape of `GraphService.upsert_entity` (the `created` flag
is folded into the record). -/
structure UpsertRes where
  id : Nat
  name : String
  properties : Props
  merged_properties : List String
  created : Bool
  deriving DecidableEq, Repr

/-- `GraphService.upsert_entity`: case-insensitive name match scoped
by label; on a match, overlay the new properties, persist through
`update_entity` and report the overlapping keys as
`merged_properties`; otherwise create a new node. -/
def upsert_entity (g : GraphState) (e : EntityCreate)
    (description : Option String) : GraphState × UpsertRes :=
  match g.nodes.filter (upsertNameMatches e) with
  | n :: _ =>
      let existingProps := n.props
      let merged0 := dictMerge existingProps e.properties
      let mergedProps :=
        match description with
        | some d => dictInsert merged0 "description" (Value.vstr d)
        | none => merged0
      let g' := (update_entity g n.id (mergedProps.map (fun kv => (kv.1, some kv.2)))).1
      let mergedKeys :=
        (e.properties.map (fun kv => kv.1)).filter (fun k => dictHasKey existingProps k)
      (g', { id := n.id
             name := (match dictLookup n.props "name" with
                      | some (Value.vstr s) => s
                      | _ => e.name)
             properties := mergedProps
             merged_properties := mergedKeys
             created := false })
  | [] =>
      let props :=
        match description with
        | some d => dictInsert e.properties "description" (Value.vstr d)
        | none => e.properties
      let p := create_entity g { e with properties := props }
      (p.1, { id := p.2, name := e.name, properties := props,
              merged_properties := [], created := true })

/-- `GraphService.delete_entity`: validate the id, issue
`MATCH (n) WHERE id(n) = X DETACH DELETE n RETURN count(*) as deleted`
and return `bool(results)`.  An aggregate-only `RETURN count(*)`
yields exactly one row (with value 0 when nothing matched), so
`results` is the singleton `[matched.length]`. -/
def delete_entity (g : GraphState) (entity_id : String) :
    Except String (GraphState × Bool) := do
  let safeId ← validate_id entity_id
  let matched := g.nodes.filter (fun n => n.id == safeId)
  let g' := { g with
    nodes := g.nodes.filter (fun n => !(n.id == safeId))
    edges := g.edges.filter (fun e => !(e.src == safeId) && !(e.tgt == safeId)) }
  let results : List Nat := [matched.length]
  pure (g', !results.isEmpty)

/-- C5 (code bug): `delete_entity` on an id that matches nothing still
returns `True` — `bool(results)` tests row presence, and the
`RETURN count(*)` aggregate always yields one row — so the
`DELETE …/entities/{id}` endpoint can never answer 404.  Evaluated at
the failing input: an empty graph and id `999`, nothing matches yet
the call reports success. -/
theorem C5_delete_entity_missing_id_returns_true :
    (({ nextId := 0, nodes := [], edges := [] } : GraphState).nodes.filter
        (fun n => n.id == 999)).length = 0 ∧
      delete_entity { nextId := 0, nodes := [], edges := [] } "999" =
        .ok ({ nextId := 0, nodes := [], edges := [] }, true) := by
  constructor
  · rfl
  · rfl

/-- The three upserts of the C4 scenario, starting from an empty
graph: `Alpha : Component {color:"red"}` twice, then
`Alpha : Component {size:"L"}`. -/
def upsertAlpha1 : GraphState × UpsertRes :=
  upsert_entity { nextId := 0, nodes := [], edges := [] }
    { name := "Alpha", type := "Component", properties := [("color", Value.vstr "red")] }
    none

def upsertAlpha2 : GraphState × UpsertRes :=
  upsert_entity upsertAlpha1.1
    { name := "Alpha", type := "Component", properties := [("color", Value.vstr "red")] }
    none

def upsertAlpha3 : GraphState × UpsertRes :=
  upsert_entity upsertAlpha2.1
    { name := "Alpha", type := "Component", properties := [("size", Value.vstr "L")] }
    none

/-- C4 counterexample: the claim (spec scenario 3) says the second
upsert response has `merged_properties = []`; on the code the second
upsert finds the existing node, and the overlapping key `color` is
reported, so `merged_properties = ["color"] ≠ []`. -/
theorem C4_upsert_second_merged_properties_nonempty :
    upsertAlpha2.2.merged_properties = ["color"] ∧
      upsertAlpha2.2.merged_properties ≠ [] := by
  constructor
  · rfl
  · decide

/-- C4 (amended): after the three upserts exactly one
`Alpha : Component` node exists and its property bag is
`{name: "Alpha", color: "red", size: "L"}` (i.e. `{color, size}`
besides the lifted name); the second and third responses both have
`created = false`, the second reports the overlapping key
`["color"]` as `merged_properties` and the third reports `[]`. -/
theorem C4_upsert_scenario :
    (upsertAlpha3.1.nodes.filter
        (upsertNameMatches
          { name := "Alpha", type := "Component", properties := [] })).length = 1 ∧
      upsertAlpha3.1.nodes =
        [{ id := 0, label := "Component",
           props := [("name", Value.vstr "Alpha"), ("color", Value.vstr "red"),
                     ("size", Value.vstr "L")] }] ∧
      upsertAlpha2.2.created = false ∧
      upsertAlpha2.2.merged_properties = ["color"] ∧
      upsertAlpha3.2.created = false ∧
      upsertAlpha3.2.merged_properties = [] := by
  refine ⟨?_, rfl, rfl, rfl, rfl, rfl⟩
  decide

/-! ## Hybrid search and cross-project fan-out
(`services/search.py`, `routers/search.py`)

The external collaborators are modelled as oracles: `embed` is the
embedding service (total — the service substitutes a zero vector when
unconfigured), and the vector-store / graph query outcomes are
`Except`-valued parameters, matching the fact that those calls can
raise and that `_vector_search` / `_graph_search` catch every
exception of their own body.  Scores are carried as rationals;
`total_time_ms` (wall-clock) is not modelled.  Each search function
additionally returns the number of `embed_text` calls it performed. -/

abbrev Vec := List Rat

inductive SearchMode
  | hybrid
  | vector
  | graph
  deriving DecidableEq, Repr

structure VectorHit where
  id : Nat
  chunk_index : Nat
  content : String
  score : Rat
  deriving DecidableEq, Repr

structure GraphRow where
  id : Nat
  entity_name : String
  entity_type : List String
  description : Option String
  deriving DecidableEq, Repr

structure SearchResult where
  rid : String
  rtype : String
  label : String
  name : String
  content : String
  score : Rat
  source : String
  project : Option String
  deriving DecidableEq, Repr

/-- Python `s[:500]`. -/
def strTake (s : String) (n : Nat) : String :=
  String.mk (s.data.take n)

/-- `SearchService._vector_search`: reuse the pre-computed embedding
when given, otherwise call `embed_text` once; then run the vector
store query, mapping each hit to a `chunk_…` result.  Any exception of
the body yields `[]`.  Second component: `embed_text` calls made. -/
def vector_search (pre : Option Vec) (embed : String → Vec) (query : String)
    (vres : Vec → Except String (List VectorHit)) : List SearchResult × Nat :=
  let calls := if pre.isSome then 0 else 1
  let queryVector := pre.getD (embed query)
  match vres queryVector with
  | .ok rows =>
      (rows.map (fun r =>
        { rid := "chunk_" ++ toString r.id
          rtype := "chunk"
          label := "Chunk"
          name := "Chunk " ++ toString r.chunk_index
          content := strTake r.content 500
          score := r.score
          source := "vector"
          project := none }), calls)
  | .error _ => ([], calls)

/-- `SearchService._graph_search`: case-insensitive CONTAINS match via
`execute_cypher`; rows without a truthy `entity_name` are skipped;
graph matches score `1.0`.  Any exception of the body yields `[]`. -/
def graph_search (gres : Except String (List GraphRow)) : List SearchResult :=
  match gres with
  | .ok rows =>
      rows.filterMap (fun r =>
        if r.entity_name == "" then none
        else some
          { rid := toString r.id
            rtype := "entity"
            label := normalize_label r.entity_type
            name := r.entity_name
            content :=
              (match r.description with
               | some d => if d == "" then r.entity_name else d
               | none => r.entity_name)
            score := 1
            source := "graph"
            project := none })
  | .error _ => []

/-- Python `sorted(results, key=lambda x: x.score, reverse=True)`
(stable). -/
def insertByScoreDesc (r : SearchResult) : List SearchResult → List SearchResult
  | [] => [r]
  | x :: xs =>
      if x.score < r.score then r :: x :: xs
      else x :: insertByScoreDesc r xs

def sortByScoreDesc (l : List SearchResult) : List SearchResult :=
  l.foldr insertByScoreDesc []

/-- The dedup loop of `SearchService.search`: keep the first
occurrence of each result id. -/
def dedupByIdGo : List SearchResult → List String → List SearchResult
  | [], _ => []
  | r :: rest, seen =>
      if seen.contains r.rid then dedupByIdGo rest seen
      else r :: dedupByIdGo rest (r.rid :: seen)

def dedupById (l : List SearchResult) : List SearchResult :=
  dedupByIdGo l []

structure SearchResponse where
  results : List SearchResult
  vector_hits : Nat
  graph_hits : Nat
  deriving DecidableEq, Repr

/-- `SearchService.search`: run the vector path for modes
`hybrid`/`vector` and the graph path for modes `hybrid`/`graph`, then
sort by score descending, dedup by id and truncate.  Total — both
paths catch their own exceptions.  Second component: `embed_text`
calls made. -/
def search_service (mode : SearchMode) (pre : Option Vec) (embed : String → Vec)
    (query : String) (vres : Vec → Except String (List VectorHit))
    (gres : Except String (List GraphRow)) (limit : Nat) :
    SearchResponse × Nat :=
  let vp := if mode = .hybrid ∨ mode = .vector then
      vector_search pre embed query vres
    else ([], 0)
  let gresults := if mode = .hybrid ∨ mode = .graph then graph_search gres else []
  let results := vp.1 ++ gresults
  let unique := dedupById (sortByScoreDesc results)
  ({ results := unique.take limit
     vector_hits := vp.1.length
     graph_hits := gresults.length }, vp.2)

structure ProjectRow where
  slug : String
  graph_name : String
  deriving DecidableEq, Repr

structure FanoutResponse where
  results : List SearchResult
  total : Nat
  projects_searched : Nat
  project_stats : List (String × Nat)
  deriving DecidableEq, Repr

/-- The merge loop of `fanout_search`: first-seen-wins dedup across
projects, counting each project’s surviving results.  State:
`(seen ids, merged, stats)`. -/
def fanoutMerge (projectResults : List (String × List SearchResult)) :
    List SearchResult × List (String × Nat) :=
  let step := fun (st : List String × List SearchResult × List (String × Nat))
      (pr : String × List SearchResult) =>
    let inner := pr.2.foldl
      (fun (st2 : List String × List SearchResult × Nat) r =>
        if st2.1.contains r.rid then st2
        else (r.rid :: st2.1, st2.2.1 ++ [r], st2.2.2 + 1))
      (st.1, st.2.1, 0)
    (inner.1, inner.2.1, st.2.2 ++ [(pr.1, inner.2.2)])
  let fin := projectResults.foldl step ([], [], [])
  (fin.2.1, fin.2.2)

/-- `fanout_search` (`routers/search.py`): load the projects, embed
the query once when the mode needs a vector, spawn one per-project
search with the shared embedding, tag, merge, dedup, sort, truncate.
The per-project `except` branch is unreachable because
`SearchService.search` is total.  Second component: total `embed_text`
calls made for the request. -/
def fanout_search (rows : List ProjectRow) (mode : SearchMode) (query : String)
    (limit : Nat) (embed : String → Vec)
    (vres : String → Vec → Except String (List VectorHit))
    (gres : String → Except String (List GraphRow)) :
    FanoutResponse × Nat :=
  if rows.isEmpty then
    ({ results := [], total := 0, projects_searched := 0, project_stats := [] }, 0)
  else
    let pre := if mode = .hybrid ∨ mode = .vector then
        (some (embed query), 1)
      else (none, 0)
    let projectResults := rows.map (fun row =>
      let r := search_service mode pre.1 embed query (vres row.slug) (gres row.slug) limit
      (row.slug, (r.1.results.map (fun x => { x with project := some row.slug }), r.2)))
    let callTotal := pre.2 + (projectResults.map (fun pr => pr.2.2)).sum
    let merged := fanoutMerge (projectResults.map (fun pr => (pr.1, pr.2.1)))
    let sorted := (sortByScoreDesc merged.1).take limit
    ({ results := sorted
       total := sorted.length
       projects_searched := rows.length
       project_stats := merged.2 }, callTotal)

/-- C2: a fan-out search over `N ≥ 1` projects whose mode is `vector`
or `hybrid` makes exactly one `embed_text` call — the shared query
embedding is passed into every per-project search, whose vector path
reuses it instead of embedding again. -/
theorem C2_fanout_single_embedding (rows : List ProjectRow)
    (hrows : rows ≠ []) (mode : SearchMode)
    (hmode : mode = .vector ∨ mode = .hybrid) (query : String) (limit : Nat)
    (embed : String → Vec) (vres : String → Vec → Except String (List VectorHit))
    (gres : String → Except String (List GraphRow)) :
    (fanout_search rows mode query limit embed vres gres).2 = 1 := by
  have hne : rows.isEmpty = false := by
    cases rows with
    | nil => exact absurd rfl hrows
    | cons a as => rfl
  have hmode' : (mode = .hybrid ∨ mode = .vector) := hmode.symm
  simp only [fanout_search, hne, Bool.false_eq_true, if_false, if_pos hmode']
  have hvs : ∀ (v : Vec) (vr : Vec → Except String (List VectorHit)),
      (vector_search (some v) embed query vr).2 = 0 := by
    intro v vr
    cases h : vr v <;> simp [vector_search, h]
  have hzero : ∀ row : ProjectRow,
      (search_service mode (some (embed query)) embed query (vres row.slug)
        (gres row.slug) limit).2 = 0 := by
    intro row
    simp only [search_service]
    by_cases h : (mode = SearchMode.hybrid ∨ mode = SearchMode.vector)
    · simp only [if_pos h]
      exact hvs (embed query) (vres row.slug)
    · simp [h]
  have hsum : ∀ (g : ProjectRow → Nat), (∀ a, g a = 0) →
      ∀ l : List ProjectRow, (l.map g).sum = 0 := by
    intro g hg l
    induction l with
    | nil => rfl
    | cons a as ih => simp [hg a, ih]
  rw [List.map_map]
  show 1 + (rows.map (fun row =>
      (search_service mode (some (embed query)) embed query (vres row.slug)
        (gres row.slug) limit).2)).sum = 1
  rw [hsum _ (fun row => hzero row) rows]

/-- Witness for C2: one project, vector mode, a failing vector store —
still exactly one embedding call. -/
theorem C2_fanout_single_embedding_witness :
    (fanout_search [⟨"demo", "project_demo"⟩] .vector "alpha" 10
      (fun _ => [0]) (fun _ _ => .error "qdrant down")
      (fun _ => .ok [])).2 = 1 :=
  C2_fanout_single_embedding [⟨"demo", "project_demo"⟩] (by decide) .vector
    (Or.inl rfl) "alpha" 10 (fun _ => [0]) (fun _ _ => .error "qdrant down")
    (fun _ => .ok [])

/-- C9: per-project hybrid search never propagates an exception from
either retrieval path: a failing path contributes an empty list and a
hit count of 0, and `search` still returns a response built from the
surviving path alone. -/
theorem C9_search_paths_isolated (pre : Option Vec) (embed : String → Vec)
    (query : String) (vres : Vec → Except String (List VectorHit))
    (gres : Except String (List GraphRow)) (limit : Nat) :
    (∀ e, vres (pre.getD (embed query)) = .error e →
      (search_service .hybrid pre embed query vres gres limit).1 =
        { results := (dedupById (sortByScoreDesc (graph_search gres))).take limit
          vector_hits := 0
          graph_hits := (graph_search gres).length }) ∧
    (∀ e, gres = .error e →
      (search_service .hybrid pre embed query vres gres limit).1 =
        { results := (dedupById (sortByScoreDesc
            (vector_search pre embed query vres).1)).take limit
          vector_hits := (vector_search pre embed query vres).1.length
          graph_hits := 0 }) := by
  constructor
  · intro e he
    simp [search_service, vector_search, he]
  · intro e he
    simp [search_service, graph_search, he]

/-- Witness for C9 at concrete oracles: the vector store raising makes
the hybrid response carry only the single graph hit; the graph path
raising makes it carry only the single vector hit. -/
theorem C9_search_paths_isolated_witness :
    (search_service .hybrid none (fun _ => [0]) "alpha"
        (fun _ => .error "qdrant down")
        (.ok [⟨7, "Alpha", ["Component"], none⟩]) 10).1 =
      { results := (dedupById (sortByScoreDesc
          (graph_search (.ok [⟨7, "Alpha", ["Component"], none⟩])))).take 10
        vector_hits := 0
        graph_hits := (graph_search
          (.ok [⟨7, "Alpha", ["Component"], none⟩])).length } ∧
    (search_service .hybrid none (fun _ => [0]) "alpha"
        (fun _ => .ok [⟨3, 0, "Alpha is a Component.", (9 : Rat) / 10⟩])
        (.error "age down") 10).1 =
      { results := (dedupById (sortByScoreDesc
          (vector_search none (fun _ => [0]) "alpha"
            (fun _ => .ok [⟨3, 0, "Alpha is a Component.", (9 : Rat) / 10⟩])).1)).take 10
        vector_hits := (vector_search none (fun _ => [0]) "alpha"
          (fun _ => .ok [⟨3, 0, "Alpha is a Component.", (9 : Rat) / 10⟩])).1.length
        graph_hits := 0 } :=
  ⟨(C9_search_paths_isolated none (fun _ => [0]) "alpha"
      (fun _ => .error "qdrant down")
      (.ok [⟨7, "Alpha", ["Component"], none⟩]) 10).1 "qdrant down" rfl,
   (C9_search_paths_isolated none (fun _ => [0]) "alpha"
      (fun _ => .ok [⟨3, 0, "Alpha is a Component.", (9 : Rat) / 10⟩])
      (.error "age down") 10).2 "age down" rfl⟩

/-! ## Document processing error capture
(`process_document`, `routers/documents.py`)

The document row is reduced to the fields the endpoint touches; the
pipeline stages inside the `try` block (chunk/point cleanup, chunking,
batched embedding, chunk-row inserts, vector upsert, the
`processed = true` UPDATE, and the swallowed extraction phase) are
oracle outcomes supplied in program order.  Timestamps are opaque
(`now`).  Errors surface as `(status, detail)` pairs. -/

structure DocRow where
  raw_content : String
  content_type : String
  processed : Bool
  processed_at : Option Nat
  error_message : Option String
  deriving DecidableEq, Repr

structure ProcessResponse where
  chunks_created : Nat
  entities_extracted : Nat
  relationships_created : Nat
  deriving DecidableEq, Repr

structure ProcessOracles where
  cleanup : Except String Unit
  chunks : List String
  embed : Except String Unit
  storeChunks : Except String Unit
  upsertVectors : Except String Unit
  markProcessed : Except String Unit
  extraction : Except String (Nat × Nat)
  deriving Repr

/-- The `try` block of `process_document`: each stage in program
order; the document row is updated to processed as the code does, and a
failure carries the row state at the point of failure.  The extraction
phase has its own `except` and never escapes. -/
def processBody (doc : DocRow) (now : Nat) (o : ProcessOracles) :
    Except (DocRow × String) (DocRow × ProcessResponse) :=
  match o.cleanup with
  | .error e => .error (doc, e)
  | .ok _ =>
    if o.chunks.isEmpty then
      .ok ({ doc with processed := true, processed_at := some now, error_message := none }, ⟨0, 0, 0⟩)
    else
      match o.embed with
      | .error e => .error (doc, e)
      | .ok _ =>
        match o.storeChunks with
        | .error e => .error (doc, e)
        | .ok _ =>
          match o.upsertVectors with
          | .error e => .error (doc, e)
          | .ok _ =>
            match o.markProcessed with
            | .error e => .error (doc, e)
            | .ok _ =>
              let doc1 := { doc with processed := true, processed_at := some now, error_message := none }
              let counts := match o.extraction with
                | .ok c => c
                | .error _ => (0, 0)
              .ok (doc1, ⟨o.chunks.length, counts.1, counts.2⟩)

/-- `process_document` after the document fetch: the empty-content
check answers 400 without touching the row; the `except` handler
records `processed = false` and the exception text on the row before
surfacing 500. -/
def process_document (doc : DocRow) (now : Nat) (o : ProcessOracles) :
    DocRow × Except (Nat × String) ProcessResponse :=
  if doc.raw_content = "" then
    (doc, .error (400, "Document has no content to process"))
  else
    match processBody doc now o with
    | .ok (doc1, resp) => (doc1, .ok resp)
    | .error (docf, e) =>
        ({ docf with processed := false, error_message := some e },
         .error (500, "Processing failed: " ++ e))

/-- C10: whenever `process_document` fails with an exception after the
empty-content check, the document row is updated to
`processed = false` with `error_message` set to the exception text
before the 500 is surfaced — so a document that was `processed = true`
from an earlier run is demoted by a failed re-processing attempt. -/
theorem C10_failed_processing_demotes_document (doc : DocRow) (now : Nat)
    (o : ProcessOracles) (docf : DocRow) (e : String)
    (hcontent : doc.raw_content ≠ "")
    (hfail : processBody doc now o = .error (docf, e)) :
    (process_document doc now o).1.processed = false ∧
      (process_document doc now o).1.error_message = some e ∧
      (process_document doc now o).2 = .error (500, "Processing failed: " ++ e) := by
  simp [process_document, hcontent, hfail]

/-- Witness for C10: a document already `processed = true` whose
re-processing fails at the embedding stage ends `processed = false`
with the failure text recorded, and the endpoint surfaces 500. -/
theorem C10_failed_processing_demotes_document_witness :
    (process_document
        { raw_content := "Alpha is a Component.", content_type := "component",
          processed := true, processed_at := some 1, error_message := none }
        2
        { cleanup := .ok (), chunks := ["Alpha is a Component."],
          embed := .error "openai timeout", storeChunks := .ok (),
          upsertVectors := .ok (), markProcessed := .ok (),
          extraction := .ok (0, 0) }).1.processed = false ∧
    (process_document
        { raw_content := "Alpha is a Component.", content_type := "component",
          processed := true, processed_at := some 1, error_message := none }
        2
        { cleanup := .ok (), chunks := ["Alpha is a Component."],
          embed := .error "openai timeout", storeChunks := .ok (),
          upsertVectors := .ok (), markProcessed := .ok (),
          extraction := .ok (0, 0) }).1.error_message = some "openai timeout" ∧
    (process_document
        { raw_content := "Alpha is a Component.", content_type := "component",
          processed := true, processed_at := some 1, error_message := none }
        2
        { cleanup := .ok (), chunks := ["Alpha is a Component."],
          embed := .error "openai timeout", storeChunks := .ok (),
          upsertVectors := .ok (), markProcessed := .ok (),
          extraction := .ok (0, 0) }).2 =
      .error (500, "Processing failed: " ++ "openai timeout") :=
  C10_failed_processing_demotes_document
    { raw_content := "Alpha is a Component.", content_type := "component",
      processed := true, processed_at := some 1, error_message := none }
    2
    { cleanup := .ok (), chunks := ["Alpha is a Component."],
      embed := .error "openai timeout", storeChunks := .ok (),
      upsertVectors := .ok (), markProcessed := .ok (),
      extraction := .ok (0, 0) }
    { raw_content := "Alpha is a Component.", content_type := "component",
      processed := true, processed_at := some 1, error_message := none }
    "openai timeout" (by decide) (by rfl)

/-! ## Chunking (`ChunkingService`, `services/chunking.py`)

The tokenizer (tiktoken) is an external collaborator, modelled as an
abstract `Encoding` (`encode`/`decode`); `count_tokens` is the length
of `encode`.  Strings are handled at character level, matching Python
`str` semantics on the ASCII inputs exercised.  `_force_split` is
written with explicit fuel equal to the token count, which bounds the
iterations of the Python `range(0, len(tokens), step)` loop (with
`step ≥ 1` each iteration drops at least one token, so the fuel is
never exhausted); a non-positive step — which the service's
`chunk_size > chunk_overlap` configuration rules out — yields no
chunks. -/

structure Encoding where
  encode : String → List Nat
  decode : List Nat → String

structure Chunk where
  content : String
  index : Nat
  token_count : Nat
  start_char : Int
  end_char : Int
  deriving DecidableEq, Repr

def countTokens (enc : Encoding) (s : String) : Nat :=
  (enc.encode s).length

/-- Python `str.strip()`. -/
def pyStrip (s : String) : String :=
  String.mk (((s.data.dropWhile Char.isWhitespace).reverse.dropWhile
    Char.isWhitespace).reverse)

/-- Python `text.split("\n\n")`. -/
def splitParasAux : List Char → List Char → List (List Char)
  | [], cur => [cur.reverse]
  | '\n' :: '\n' :: rest, cur => cur.reverse :: splitParasAux rest []
  | c :: rest, cur => splitParasAux rest (c :: cur)

def splitParas (s : String) : List String :=
  (splitParasAux s.data []).map String.mk

/-- Python `haystack.find(needle)`. -/
def findSubAux (needle : List Char) : List Char → Int → Int
  | [], i => if needle.isEmpty then i else -1
  | c :: rest, i =>
      if needle.isPrefixOf (c :: rest) then i else findSubAux needle rest (i + 1)

def strFind (hay needle : String) : Int :=
  findSubAux needle.data hay.data 0

def isSentencePunct (c : Char) : Bool :=
  c = '.' || c = '!' || c = '?'

/-- `re.split(r'(?<=[.!?])\s+', text)`: split at each whitespace run
immediately preceded by a sentence terminator (`skipping` is true
while consuming such a run; `cur` is the reversed current piece). -/
def splitSentencesAux : List Char → List Char → Bool → List (List Char)
  | [], cur, _ => [cur.reverse]
  | c :: rest, cur, skipping =>
      if skipping then
        if c.isWhitespace then splitSentencesAux rest cur true
        else splitSentencesAux rest [c] false
      else
        if c.isWhitespace && isSentencePunct (cur.headD ' ') then
          cur.reverse :: splitSentencesAux rest [] true
        else splitSentencesAux rest (c :: cur) false

/-- `ChunkingService._split_sentences`: regex split, then strip each
piece and drop the empty ones. -/
def split_sentences (s : String) : List String :=
  ((splitSentencesAux s.data [] false).map (fun cs => pyStrip (String.mk cs))).filter
    (fun x => !(x == ""))

def forceSplitGo (enc : Encoding) (size step : Nat) :
    Nat → List Nat → Nat → Int → List Chunk
  | 0, _, _, _ => []
  | fuel + 1, tokens, idx, charPos =>
      if tokens.isEmpty || step == 0 then []
      else
        let window := tokens.take size
        let ctext := enc.decode window
        { content := ctext, index := idx, token_count := window.length,
          start_char := charPos, end_char := charPos + ctext.length } ::
          forceSplitGo enc size step fuel (tokens.drop step)
            (idx + 1) (charPos + ctext.length)

/-- `ChunkingService._force_split`: windows of `chunk_size` tokens
stepping by `chunk_size - chunk_overlap`; `token_count` is the window
length. -/
def force_split (enc : Encoding) (size overlap : Nat) (text : String)
    (startChar : Int) (startIndex : Nat) : List Chunk :=
  forceSplitGo enc size (size - overlap) (enc.encode text).length (enc.encode text)
    startIndex startChar

/-- A chunk as emitted by the merging loops: recounted content,
`end_char = start_char + len(content)`. -/
def mkChunkSimple (enc : Encoding) (content : String) (idx : Nat) (start : Int) : Chunk :=
  { content := content, index := idx, token_count := countTokens enc content,
    start_char := start, end_char := start + content.length }

structure SLPState where
  chunks : List Chunk
  current : String
  currentStart : Int
  idx : Nat
  deriving Repr

/-- One iteration of the sentence loop of `_split_long_paragraph`. -/
def slpStep (enc : Encoding) (size overlap : Nat) (st : SLPState)
    (sentence : String) : SLPState :=
  let candidate := if st.current = "" then sentence else st.current ++ " " ++ sentence
  if countTokens enc candidate ≤ size then
    { st with current := candidate }
  else
    let st1 :=
      if st.current = "" then st
      else
        { chunks := st.chunks ++ [mkChunkSimple enc st.current st.idx st.currentStart]
          current := st.current
          currentStart := st.currentStart + st.current.length + 1
          idx := st.idx + 1 }
    if size < countTokens enc sentence then
      let forced := force_split enc size overlap sentence st1.currentStart st1.idx
      { chunks := st1.chunks ++ forced
        current := ""
        currentStart := st1.currentStart + ((forced.map (fun c => c.content.length)).sum : Int)
        idx := st1.idx + forced.length }
    else
      { st1 with current := sentence }

/-- `ChunkingService._split_long_paragraph`. -/
def split_long_paragraph (enc : Encoding) (size overlap : Nat)
    (para fullText : String) (startIndex : Nat) : List Chunk :=
  let st0 : SLPState :=
    { chunks := [], current := "", currentStart := strFind fullText para, idx := startIndex }
  let stF := (split_sentences para).foldl (slpStep enc size overlap) st0
  if stF.current = "" then stF.chunks
  else stF.chunks ++ [mkChunkSimple enc stF.current stF.idx stF.currentStart]

structure CTState where
  chunks : List Chunk
  current : String
  currentStart : Int
  index : Nat
  deriving Repr

/-- One iteration of the paragraph loop of `chunk_text`. -/
def ctStep (enc : Encoding) (size overlap : Nat) (text : String)
    (st : CTState) (para : String) : CTState :=
  let paraTokens := countTokens enc para
  let candidate := if st.current = "" then para else st.current ++ "\n\n" ++ para
  if countTokens enc candidate ≤ size then
    if st.current = "" then { st with current := para, currentStart := strFind text para }
    else { st with current := candidate }
  else
    let st1 :=
      if st.current = "" then st
      else
        { st with
          chunks := st.chunks ++ [mkChunkSimple enc st.current st.index st.currentStart]
          index := st.index + 1 }
    if size < paraTokens then
      let pcs := split_long_paragraph enc size overlap para text st1.index
      { st1 with chunks := st1.chunks ++ pcs, current := "", index := st1.index + pcs.length }
    else
      { st1 with current := para, currentStart := strFind text para }

/-- `chunk_text` before the overlap pass: trim, split into stripped
non-empty paragraphs, accumulate, and emit the trailing chunk. -/
def chunkTextRaw (enc : Encoding) (size overlap : Nat) (text0 : String) : List Chunk :=
  if pyStrip text0 = "" then []
  else
    let text := pyStrip text0
    let paragraphs := ((splitParas text).map pyStrip).filter (fun p => !(p == ""))
    if paragraphs.isEmpty then []
    else
      let st0 : CTState := { chunks := [], current := "", currentStart := 0, index := 0 }
      let stF := paragraphs.foldl (ctStep enc size overlap text) st0
      if stF.current = "" then stF.chunks
      else stF.chunks ++ [mkChunkSimple enc stF.current stF.index stF.currentStart]

/-- The loop of `_add_overlap`: prepend the decoded last
`chunk_overlap` tokens of the previous (pre-overlap) chunk and
recompute `token_count`. -/
def overlapGo (enc : Encoding) (overlap : Nat) : Chunk → List Chunk → List Chunk
  | _, [] => []
  | prev, c :: cs =>
      let prevTokens := enc.encode prev.content
      let overlapTokens :=
        if overlap < prevTokens.length then prevTokens.drop (prevTokens.length - overlap)
        else prevTokens
      let otext := enc.decode overlapTokens
      let newContent := otext ++ " " ++ c.content
      { content := newContent, index := c.index,
        token_count := countTokens enc newContent,
        start_char := c.start_char - otext.length - 1,
        end_char := c.end_char } :: overlapGo enc overlap c cs

/-- `ChunkingService._add_overlap`: the first chunk stays as-is. -/
def add_overlap (enc : Encoding) (overlap : Nat) (chunks : List Chunk) : List Chunk :=
  if chunks.length ≤ 1 ∨ overlap = 0 then chunks
  else
    match chunks with
    | [] => []
    | c0 :: rest => c0 :: overlapGo enc overlap c0 rest

/-- `ChunkingService.chunk_text`: the accumulation passes followed by
the overlap pass. -/
def chunk_text (enc : Encoding) (size overlap : Nat) (text : String) : List Chunk :=
  add_overlap enc overlap (chunkTextRaw enc size overlap text)

/-- A concrete character-level tokenizer (each character one token). -/
def charEncoding : Encoding :=
  { encode := fun s => s.data.map Char.toNat
    decode := fun ts => String.mk (ts.map Char.ofNat) }

/-- C3 counterexample: with the character tokenizer, `chunk_size = 5`,
`chunk_overlap = 2` and the two-paragraph text `"aaaaa\n\nbbbbb"`, the
overlap pass prepends two tokens and a joining space to the second
chunk, whose recomputed `token_count` is 8 > 5 — refuting the claim
that every chunk returned by `chunk_text` has `token_count ≤
chunk_size`. -/
theorem C3_overlap_pass_exceeds_chunk_size :
    ((chunk_text charEncoding 5 2 "aaaaa\n\nbbbbb").map (fun c => c.token_count)) =
        [5, 8] ∧
      ¬ (∀ c ∈ chunk_text charEncoding 5 2 "aaaaa\n\nbbbbb", c.token_count ≤ 5) := by
  constructor
  · decide
  · decide

theorem forceSplitGo_bound (enc : Encoding) (size step fuel : Nat) :
    ∀ (tokens : List Nat) (idx : Nat) (cp : Int) (c : Chunk),
      c ∈ forceSplitGo enc size step fuel tokens idx cp → c.token_count ≤ size := by
  induction fuel with
  | zero =>
      intro tokens idx cp c hc
      simp [forceSplitGo] at hc
  | succ fuel ih =>
      intro tokens idx cp c hc
      by_cases hguard : tokens.isEmpty || step == 0
      · simp [forceSplitGo, hguard] at hc
      · simp only [forceSplitGo, hguard, Bool.false_eq_true, if_false] at hc
        rcases List.mem_cons.mp hc with rfl | h
        · exact List.length_take_le size tokens
        · exact ih (tokens.drop step) (idx + 1) _ c h

theorem force_split_bound (enc : Encoding) (size overlap : Nat) (text : String)
    (startChar : Int) (startIndex : Nat) :
    ∀ c ∈ force_split enc size overlap text startChar startIndex,
      c.token_count ≤ size := by
  intro c hc
  exact forceSplitGo_bound enc size (size - overlap) _ _ _ _ c hc

/-- Invariant of the sentence loop: every emitted chunk is within the
budget and so is the non-empty accumulator (its token count was
checked by the guard of the step that formed it). -/
def SLPInv (enc : Encoding) (size : Nat) (st : SLPState) : Prop :=
  (∀ c ∈ st.chunks, c.token_count ≤ size) ∧
    (st.current ≠ "" → countTokens enc st.current ≤ size)

theorem slpStep_inv (enc : Encoding) (size overlap : Nat) (st : SLPState)
    (sentence : String) (h : SLPInv enc size st) :
    SLPInv enc size (slpStep enc size overlap st sentence) := by
  unfold slpStep
  by_cases hfit :
      countTokens enc (if st.current = "" then sentence
        else st.current ++ " " ++ sentence) ≤ size
  · simp only [if_pos hfit]
    exact ⟨h.1, fun _ => hfit⟩
  · simp only [if_neg hfit]
    have hst1 : ∀ c ∈ (if st.current = "" then st
        else { chunks := st.chunks ++ [mkChunkSimple enc st.current st.idx st.currentStart]
               current := st.current
               currentStart := st.currentStart + st.current.length + 1
               idx := st.idx + 1 : SLPState }).chunks, c.token_count ≤ size := by
      by_cases hcur : st.current = ""
      · simpa [hcur] using h.1
      · simp only [if_neg hcur]
        intro c hc
        rcases List.mem_append.mp hc with hc | hc
        · exact h.1 c hc
        · simp only [List.mem_singleton] at hc
          subst hc
          exact h.2 hcur
    by_cases hbig : size < countTokens enc sentence
    · simp only [if_pos hbig]
      refine ⟨?_, by simp⟩
      intro c hc
      rcases List.mem_append.mp hc with hc | hc
      · exact hst1 c hc
      · exact force_split_bound enc size overlap sentence _ _ c hc
    · simp only [if_neg hbig]
      refine ⟨hst1, fun _ => le_of_not_lt hbig⟩

theorem foldl_slp_inv (enc : Encoding) (size overlap : Nat)
    (sentences : List String) (st : SLPState) (h : SLPInv enc size st) :
    SLPInv enc size (sentences.foldl (slpStep enc size overlap) st) := by
  induction sentences generalizing st with
  | nil => exact h
  | cons sen rest ih =>
      exact ih (slpStep enc size overlap st sen) (slpStep_inv enc size overlap st sen h)

theorem split_long_paragraph_bound (enc : Encoding) (size overlap : Nat)
    (para fullText : String) (startIndex : Nat) :
    ∀ c ∈ split_long_paragraph enc size overlap para fullText startIndex,
      c.token_count ≤ size := by
  intro c hc
  unfold split_long_paragraph at hc
  set stF := (split_sentences para).foldl (slpStep enc size overlap)
    { chunks := [], current := "", currentStart := strFind fullText para,
      idx := startIndex } with hstF
  have hinv : SLPInv enc size stF :=
    foldl_slp_inv enc size overlap (split_sentences para) _ ⟨by simp, by simp⟩
  by_cases hcur : stF.current = ""
  · rw [if_pos hcur] at hc
    exact hinv.1 c hc
  · rw [if_neg hcur] at hc
    rcases List.mem_append.mp hc with hc | hc
    · exact hinv.1 c hc
    · simp only [List.mem_singleton] at hc
      subst hc
      exact hinv.2 hcur

/-- Invariant of the paragraph loop of `chunk_text`. -/
def CTInv (enc : Encoding) (size : Nat) (st : CTState) : Prop :=
  (∀ c ∈ st.chunks, c.token_count ≤ size) ∧
    (st.current ≠ "" → countTokens enc st.current ≤ size)

theorem ctStep_inv (enc : Encoding) (size overlap : Nat) (text : String)
    (st : CTState) (para : String) (h : CTInv enc size st) :
    CTInv enc size (ctStep enc size overlap text st para) := by
  unfold ctStep
  by_cases hfit :
      countTokens enc (if st.current = "" then para
        else st.current ++ "\n\n" ++ para) ≤ size
  · simp only [if_pos hfit]
    by_cases hcur : st.current = ""
    · simp only [if_pos hcur]
      exact ⟨h.1, fun _ => by simpa [hcur] using hfit⟩
    · simp only [if_neg hcur]
      refine ⟨h.1, fun _ => ?_⟩
      rw [if_neg hcur] at hfit
      exact hfit
  · simp only [if_neg hfit]
    have hst1 : ∀ c ∈ (if st.current = "" then st
        else { st with
               chunks := st.chunks ++ [mkChunkSimple enc st.current st.index st.currentStart]
               index := st.index + 1 }).chunks, c.token_count ≤ size := by
      by_cases hcur : st.current = ""
      · simpa [hcur] using h.1
      · simp only [if_neg hcur]
        intro c hc
        rcases List.mem_append.mp hc with hc | hc
        · exact h.1 c hc
        · simp only [List.mem_singleton] at hc
          subst hc
          exact h.2 hcur
    by_cases hbig : size < countTokens enc para
    · simp only [if_pos hbig]
      refine ⟨?_, by simp⟩
      intro c hc
      rcases List.mem_append.mp hc with hc | hc
      · exact hst1 c hc
      · exact split_long_paragraph_bound enc size overlap para text _ c hc
    · simp only [if_neg hbig]
      refine ⟨hst1, fun _ => le_of_not_lt hbig⟩

theorem foldl_ct_inv (enc : Encoding) (size overlap : Nat) (text : String)
    (paras : List String) (st : CTState) (h : CTInv enc size st) :
    CTInv enc size (paras.foldl (ctStep enc size overlap text) st) := by
  induction paras generalizing st with
  | nil => exact h
  | cons p rest ih =>
      exact ih (ctStep enc size overlap text st p) (ctStep_inv enc size overlap text st p h)

theorem add_overlap_head (enc : Encoding) (overlap : Nat) (l : List Chunk) :
    (add_overlap enc overlap l).head? = l.head? := by
  unfold add_overlap
  by_cases h : l.length ≤ 1 ∨ overlap = 0
  · simp [h]
  · simp only [if_neg h]
    cases l <;> simp

/-- C3 (amended): for every tokenizer, text and parameters with
`chunk_overlap < chunk_size`, every chunk produced by `chunk_text`
*before* the overlap pass has `token_count ≤ chunk_size` (and the
first returned chunk, which the overlap pass leaves untouched, keeps
the bound); chunks after the first may exceed the bound once the
previous chunk's `chunk_overlap` trailing tokens are prepended, as the
counterexample shows. -/
theorem C3_chunk_token_bound_pre_overlap (enc : Encoding) (size overlap : Nat)
    (_hov : overlap < size) (text : String) :
    (∀ c ∈ chunkTextRaw enc size overlap text, c.token_count ≤ size) ∧
      (chunk_text enc size overlap text).head? =
        (chunkTextRaw enc size overlap text).head? := by
  refine ⟨?_, add_overlap_head enc overlap _⟩
  intro c hc
  unfold chunkTextRaw at hc
  by_cases hblank : pyStrip text = ""
  · simp [hblank] at hc
  · rw [if_neg hblank] at hc
    set paragraphs := ((splitParas (pyStrip text)).map pyStrip).filter
      (fun p => !(p == "")) with hparas
    by_cases hpe : paragraphs.isEmpty
    · simp only [← hparas, hpe, if_true] at hc
      simp at hc
    · simp only [← hparas, hpe, Bool.false_eq_true, if_false] at hc
      set stF := paragraphs.foldl (ctStep enc size overlap (pyStrip text))
        { chunks := [], current := "", currentStart := 0, index := 0 } with hstF
      have hinv : CTInv enc size stF :=
        foldl_ct_inv enc size overlap (pyStrip text) paragraphs _ ⟨by simp, by simp⟩
      by_cases hcur : stF.current = ""
      · rw [if_pos hcur] at hc
        exact hinv.1 c hc
      · rw [if_neg hcur] at hc
        rcases List.mem_append.mp hc with hc | hc
        · exact hinv.1 c hc
        · simp only [List.mem_singleton] at hc
          subst hc
          exact hinv.2 hcur

/-- Witness for the amended C3 at the counterexample input: with
`overlap = 2 < 5 = size`, the first pre-overlap chunk `"aaaaa"` is a
member and satisfies the bound. -/
theorem C3_chunk_token_bound_pre_overlap_witness :
    (2 : Nat) < 5 ∧
      ({ content := "aaaaa", index := 0, token_count := 5, start_char := 0,
         end_char := 5 } : Chunk) ∈ chunkTextRaw charEncoding 5 2 "aaaaa\n\nbbbbb" ∧
      ({ content := "aaaaa", index := 0, token_count := 5, start_char := 0,
         end_char := 5 } : Chunk).token_count ≤ 5 :=
  ⟨by decide, by decide,
    (C3_chunk_token_bound_pre_overlap charEncoding 5 2 (by decide) "aaaaa\n\nbbbbb").1
      { content := "aaaaa", index := 0, token_count := 5, start_char := 0, end_char := 5 }
      (by decide)⟩

end ContextGraph
